import Mathlib

/-!
Verification of the portfolio data-integration program (`main.py`).

This file gives a shallow embedding of the program's core: the link
sanitizer (`remove_external_links`), the date resolver
(`extract_date_from_sheet`), the format transplanter
(`copy_tab1_format_with_client_data`), the tab identity allocator (the
truncate-and-suffix loop of `create_summary_for_client`), and the
per-client builder (`create_summary_for_client` / the client loop of
`create_summary_files`).

Modelling conventions:
- Worksheets are sparse association lists from 1-based (row, column)
  coordinates to cells, in the order the library would iterate them.
- Python object identity for style objects is modelled by a heap
  (a list of style values) with cells holding indices into it; `copy`
  allocates a fresh index holding the same value.
- Python exceptions are modelled with `Except String`.
- Python's `datetime.strptime` (a library routine, not part of the
  source) is modelled for the four fixed formats the source uses, at the
  granularity of the source's use: fields of bounded digit counts
  separated by the literal separator, with real calendar validation.
  For the separator formats a field never crosses a separator (CPython's
  regex engine would additionally accept digit runs such as "2024-111";
  those inputs are not exercised here).
-/

/-! ## Dates and date strings -/

structure PyDate where
  year : Nat
  month : Nat
  day : Nat
deriving DecidableEq

/-- Python truth of a leap year, as `calendar`/`datetime` decide it. -/
def isLeapYear (y : Nat) : Bool :=
  (y % 4 == 0 && y % 100 != 0) || y % 400 == 0

def daysInMonth (y m : Nat) : Nat :=
  if m = 2 then (if isLeapYear y then 29 else 28)
  else if m = 4 ∨ m = 6 ∨ m = 9 ∨ m = 11 then 30
  else 31

/-- The dates `datetime.datetime` accepts: year 1..9999, real calendar day. -/
def validYMD (y m d : Nat) : Bool :=
  1 ≤ y && y ≤ 9999 && 1 ≤ m && m ≤ 12 && 1 ≤ d && d ≤ daysInMonth y m

def mkPyDate? (y m d : Nat) : Option PyDate :=
  if validYMD y m d then some ⟨y, m, d⟩ else none

def digitVal (c : Char) : Nat := c.toNat - '0'.toNat

/-- Numeric value of a digit field: all characters must be decimal digits,
    at least one and at most `maxLen` of them (the bounds `strptime`
    places on a field of the corresponding directive). -/
def parseField (cs : List Char) (maxLen : Nat) : Option Nat :=
  if cs ≠ [] ∧ cs.length ≤ maxLen ∧ cs.all Char.isDigit then
    some (cs.foldl (fun a c => a * 10 + digitVal c) 0)
  else none

/-- Split a character list at every occurrence of `sep`
    (Python `str.split(sep)` for a one-character separator). -/
def splitOnChar (sep : Char) : List Char → List (List Char)
  | [] => [[]]
  | c :: cs =>
    let r := splitOnChar sep cs
    if c = sep then [] :: r
    else
      match r with
      | [] => [[c]]
      | g :: gs => (c :: g) :: gs

/-- Model of `datetime.strptime(s, "%Y-%m-%d")` (and with other
    separators): three digit fields of at most 4, 2, 2 digits around the
    literal separator, then calendar validation. -/
def parseYmdSep (sep : Char) (s : String) : Option PyDate :=
  match splitOnChar sep s.data with
  | [ys, ms, ds] =>
    (parseField ys 4).bind fun y =>
      (parseField ms 2).bind fun m =>
        (parseField ds 2).bind fun d => mkPyDate? y m d
  | _ => none

/-- Model of `datetime.strptime(s, "%m/%d/%Y")`. -/
def parseMdySlash (s : String) : Option PyDate :=
  match splitOnChar '/' s.data with
  | [ms, ds, ys] =>
    (parseField ms 2).bind fun m =>
      (parseField ds 2).bind fun d =>
        (parseField ys 4).bind fun y => mkPyDate? y m d
  | _ => none

/-- Model of `datetime.strptime(s, "%d/%m/%Y")`. -/
def parseDmySlash (s : String) : Option PyDate :=
  match splitOnChar '/' s.data with
  | [ds, ms, ys] =>
    (parseField ds 2).bind fun d =>
      (parseField ms 2).bind fun m =>
        (parseField ys 4).bind fun y => mkPyDate? y m d
  | _ => none

/-- The field-width splits `strptime`'s backtracking regex tries for
    `%Y%m%d` against a run of `n` digits, in matching order: the year
    field greedy first (up to 4 digits), then the month field (up to 2),
    the day field taking the exact remainder (1 or 2 digits). -/
def compactSplit (n : Nat) : Option (Nat × Nat) :=
  [(4, 2), (4, 1), (3, 2), (3, 1), (2, 2), (2, 1), (1, 2), (1, 1)].findSome?
    (fun p => if p.1 + p.2 < n ∧ n ≤ p.1 + p.2 + 2 ∧ n - (p.1 + p.2) ≤ 2 then some p else none)

/-- Model of `datetime.strptime(s, "%Y%m%d")`: a pure digit run split by
    the first regex match (greedy with backtracking), then calendar
    validation of that one split. -/
def parseYmdCompact (s : String) : Option PyDate :=
  let cs := s.data
  if cs ≠ [] ∧ cs.all Char.isDigit then
    (compactSplit cs.length).bind fun p =>
      (parseField (cs.take p.1) 4).bind fun y =>
        (parseField ((cs.drop p.1).take p.2) 2).bind fun m =>
          (parseField ((cs.drop p.1).drop p.2) 2).bind fun d => mkPyDate? y m d
  else none

/-- The format list of `extract_date_from_sheet`, in source order:
    `"%Y-%m-%d", "%m/%d/%Y", "%d/%m/%Y", "%Y%m%d"`. -/
def strptimeFormats : List (String → Option PyDate) :=
  [parseYmdSep '-', parseMdySlash, parseDmySlash, parseYmdCompact]

/-- Left-pad the decimal representation to two digits (`strftime` `%m`/`%d`). -/
def pad2 (n : Nat) : String :=
  if n < 10 then "0" ++ Nat.repr n else Nat.repr n

/-- Left-pad the decimal representation to four digits (`strftime` `%Y`). -/
def pad4 (n : Nat) : String :=
  if n < 10 then "000" ++ Nat.repr n
  else if n < 100 then "00" ++ Nat.repr n
  else if n < 1000 then "0" ++ Nat.repr n
  else Nat.repr n

/-- `d.strftime("%Y%m%d")`. -/
def formatYYYYMMDD (d : PyDate) : String :=
  pad4 d.year ++ pad2 d.month ++ pad2 d.day

/-! ## Cells, worksheets, workbooks -/

/-- A cell value as openpyxl hands it to the program. -/
inductive CellValue where
  | empty
  | str (s : String)
  | num (n : Int)
  | date (d : PyDate)
  | boolean (b : Bool)
deriving DecidableEq

/-- Python truthiness of a cell value (`if cell_value:`). A `datetime`
    is always truthy. -/
def truthy : CellValue → Bool
  | .empty => false
  | .str s => s ≠ ""
  | .num n => n ≠ 0
  | .date _ => true
  | .boolean b => b

/-- The contents of one style object (font, border, fill, protection or
    alignment); `copy` duplicates it structurally. -/
structure StyleVal where
  descr : String
deriving DecidableEq

/-- The heap of live style objects; a cell refers to them by index, and
    `copy` allocates a fresh index. -/
abbrev StyleHeap := List StyleVal

/-- The style bundle of a styled cell: references into the heap for the
    five copied sub-objects, plus the number-format string (immutable in
    Python, so held by value). -/
structure StyleB where
  font : Nat
  border : Nat
  fill : Nat
  protection : Nat
  alignment : Nat
  numberFormat : String
deriving DecidableEq

/-- A worksheet cell. `style = none` models `cell.has_style == False`
    (the cell renders with sheet defaults). -/
structure SCell where
  value : CellValue
  style : Option StyleB
deriving DecidableEq

abbrev Coord := Nat × Nat

/-- A fresh cell as `ws.cell(row, column)` materialises it: empty value,
    default style. -/
def defaultSCell : SCell := ⟨.empty, none⟩

structure Worksheet where
  name : String
  cells : List (Coord × SCell)
  colWidths : List (Nat × Int)
  rowHeights : List (Nat × Int)
  merged : List (Coord × Coord)
deriving DecidableEq

structure Workbook where
  sheets : List Worksheet
deriving DecidableEq

def lookupCell (ws : Worksheet) (p : Coord) : Option SCell :=
  (ws.cells.find? (fun e => decide (e.1 = p))).map (·.2)

/-- `ws.cell(row, column).value`, which is `None` for an absent cell. -/
def valueAt (ws : Worksheet) (p : Coord) : CellValue :=
  ((lookupCell ws p).map SCell.value).getD .empty

/-- Update the entry at key `p` (coordinates are unique keys in a
    worksheet's cell store), appending a fresh cell when absent. -/
def upsertCells (p : Coord) (f : SCell → SCell) : List (Coord × SCell) → List (Coord × SCell)
  | [] => [(p, f defaultSCell)]
  | e :: t => if e.1 = p then (e.1, f e.2) :: t else e :: upsertCells p f t

/-- `c = ws.cell(row, column)` followed by mutating `c` through `f`:
    materialises the cell if absent, then applies `f` to it. -/
def cellOp (ws : Worksheet) (p : Coord) (f : SCell → SCell) : Worksheet :=
  { ws with cells := upsertCells p f ws.cells }

def sheetNames (wb : Workbook) : List String :=
  wb.sheets.map (·.name)

/-- `wb[name]`. -/
def getSheet (wb : Workbook) (n : String) : Option Worksheet :=
  wb.sheets.find? (fun ws => decide (ws.name = n))

/-- `wb.remove(wb[name])` (sheet names are unique in a workbook). -/
def removeSheet (wb : Workbook) (n : String) : Workbook :=
  ⟨wb.sheets.filter (fun ws => decide (ws.name ≠ n))⟩

/-! ## Link sanitizer (`remove_external_links`, main.py lines 12-31) -/

/-- Does `cs` match `.xl` then any non-newline run then a closing
    bracket (the part of the pattern after the matched dot-x-l)? -/
def xlTail : List Char → Bool
  | [] => false
  | c :: cs => if c = ']' then true else if c = '\n' then false else xlTail cs

/-- Does a suffix of `cs` starting here match the regex remainder
    after an opening bracket: any non-newline run, then `.xl`, then any
    non-newline run, then a closing bracket? -/
def bracketTail : List Char → Bool
  | [] => false
  | c :: cs =>
    (if c = '.' then
      match cs with
      | 'x' :: 'l' :: rest => xlTail rest
      | _ => false
    else false)
    || (c ≠ '\n' && bracketTail cs)

/-- Model of the unanchored search for the raw pattern
    backslash-bracket dot-star backslash-dot x l dot-star
    backslash-closing-bracket used at main.py line 21. -/
def hasBracketXl : List Char → Bool
  | [] => false
  | c :: cs => (c = '[' && bracketTail cs) || hasBracketXl cs

/-- The exact condition under which main.py lines 19-29 clear a cell:
    a truthy string that (matches the bracketed `.xl` pattern or
    contains a single quote), starts with the formula marker, and
    contains both an opening and a closing bracket. -/
def shouldClear : CellValue → Bool
  | .str s =>
    truthy (.str s) &&
    (hasBracketXl s.data || s.data.contains '\'') &&
    (match s.data with | '=' :: _ => true | _ => false) &&
    (s.data.contains '[' && s.data.contains ']')
  | _ => false

def sanitizeCell (c : SCell) : SCell :=
  if shouldClear c.value then { c with value := .empty } else c

def sanitizeSheet (ws : Worksheet) : Worksheet :=
  { ws with cells := ws.cells.map (fun e => (e.1, sanitizeCell e.2)) }

/-- `remove_external_links(workbook)`: every cell of every sheet whose
    value meets `shouldClear` has its value set to `None`; nothing else
    changes. -/
def remove_external_links (wb : Workbook) : Workbook :=
  ⟨wb.sheets.map sanitizeSheet⟩

/-! ## Date resolver (`extract_date_from_sheet`, main.py lines 33-62) -/

/-- The date (formatted `YYYYMMDD`) one loop-body inspection of a cell
    value yields: a truthy native date is formatted directly; a truthy
    string is tried against the four formats in order; everything else
    yields nothing and the scan continues. -/
def dateFromCellValue (v : CellValue) : Option String :=
  if truthy v then
    match v with
    | .date dt => some (formatYYYYMMDD dt)
    | .str s => (strptimeFormats.findSome? (fun p => p s)).map formatYYYYMMDD
    | _ => none
  else none

/-- The 5 x 5 probe window, rows 1..5 outer, columns 1..5 inner
    (row-major order of the two nested loops). -/
def windowCoords : List Coord :=
  (List.range 5).flatMap (fun r => (List.range 5).map (fun c => (r + 1, c + 1)))

/-- `extract_date_from_sheet(client_ws)`: first cell of the window, in
    row-major order, whose value yields a date. -/
def extract_date_from_sheet (ws : Worksheet) : Option String :=
  windowCoords.findSome? (fun p => dateFromCellValue (valueAt ws p))

/-! ## Format transplanter (`copy_tab1_format_with_client_data`, main.py lines 64-103) -/

/-- Value of the style object a reference designates. -/
def derefStyle (h : StyleHeap) (i : Nat) : StyleVal :=
  h.getD i ⟨""⟩

/-- The contents read by the five `copy(...)` calls of main.py lines
    76-81 for one styled template cell, in source order: font, border,
    fill, protection, alignment. -/
def copiedVals (h : StyleHeap) (b : StyleB) : List StyleVal :=
  [derefStyle h b.font, derefStyle h b.border, derefStyle h b.fill,
   derefStyle h b.protection, derefStyle h b.alignment]

/-- The references to the five freshly allocated copies, plus the
    number-format string which is assigned directly (immutable). -/
def freshBundle (h : StyleHeap) (b : StyleB) : StyleB :=
  ⟨h.length, h.length + 1, h.length + 2, h.length + 3, h.length + 4, b.numberFormat⟩

/-- The five `copy(...)` calls of main.py lines 76-81 for one styled
    template cell: read the referenced objects, allocate five fresh
    objects with the same contents, and reference those. -/
def copyCellStyle (h : StyleHeap) (b : StyleB) : StyleHeap × StyleB :=
  (h ++ copiedVals h b, freshBundle h b)

/-- One iteration of the formatting loop (main.py lines 70-81): the
    target cell is materialised; if the template cell has style, fresh
    copies of its style objects are attached. -/
def copyStylesStep (acc : StyleHeap × Worksheet) (e : Coord × SCell) : StyleHeap × Worksheet :=
  match e.2.style with
  | none => (acc.1, cellOp acc.2 e.1 id)
  | some b =>
    let hb := copyCellStyle acc.1 b
    (hb.1, cellOp acc.2 e.1 (fun c => { c with style := some hb.2 }))

/-- One iteration of the data loop (main.py lines 96-101): non-empty
    client values are written at the identical coordinate, styles left
    as the formatting pass established them. -/
def writeDataStep (ws : Worksheet) (e : Coord × SCell) : Worksheet :=
  if e.2.value = .empty then ws
  else cellOp ws e.1 (fun c => { c with value := e.2.value })

/-- Python `m[k] = v` on an assoc list (`new_ws.column_dimensions[col].width = w`). -/
def setAssoc (m : List (Nat × Int)) (k : Nat) (v : Int) : List (Nat × Int) :=
  if m.any (fun e => decide (e.1 = k)) then
    m.map (fun e => if e.1 = k then (e.1, v) else e)
  else m ++ [(k, v)]

/-- The formatting loop (main.py lines 70-81) over the freshly created
    sheet: every template cell is materialised at the same coordinate
    and styled cells receive fresh copies of the template's styles. -/
def formatPass (h : StyleHeap) (tab1 : Worksheet) (newName : String) :
    StyleHeap × Worksheet :=
  tab1.cells.foldl copyStylesStep (h, ⟨newName, [], [], [], []⟩)

/-- The dimension-copy loops (main.py lines 83-93): column widths, row
    heights, then merged ranges, entry by entry. -/
def dimensionsPass (tab1 ws : Worksheet) : Worksheet :=
  let ws1 :=
    { ws with
      colWidths := tab1.colWidths.foldl (fun m (e : Nat × Int) => setAssoc m e.1 e.2) ws.colWidths }
  let ws2 :=
    { ws1 with
      rowHeights := tab1.rowHeights.foldl (fun m (e : Nat × Int) => setAssoc m e.1 e.2) ws1.rowHeights }
  { ws2 with merged := tab1.merged.foldl (fun acc r => acc ++ [r]) ws2.merged }

/-- `copy_tab1_format_with_client_data(source_wb, tab1_ws, client_ws,
    new_tab_name)`. Returns the grown heap, the workbook with the new
    sheet appended (`create_sheet`), and the new sheet itself. All
    mutations of the source target only the new sheet, so the appended
    sheet is built here as a pure fold and the other sheets carry over. -/
def copy_tab1_format_with_client_data (h : StyleHeap) (wb : Workbook)
    (tab1 clientWs : Worksheet) (newName : String) :
    StyleHeap × Workbook × Worksheet :=
  let hws := formatPass h tab1 newName
  let ws3 := dimensionsPass tab1 hws.2
  let ws4 := clientWs.cells.foldl writeDataStep ws3
  (hws.1, ⟨wb.sheets ++ [ws4]⟩, ws4)

/-! ## Tab identity allocator (main.py lines 233-239) -/

/-- Python string slicing `s[:i]` for an arbitrary (possibly negative)
    integer bound. -/
def pySliceTo (s : String) (i : Int) : String :=
  ⟨s.data.take (if i < 0 then ((s.data.length : Int) + i).toNat else i.toNat)⟩

/-- The candidate label for counter `k`: the suffix `"_" + str(k)` is
    appended to the base truncated so the whole stays within 31
    characters (`original_name[:31 - len(suffix)]` at line 238). -/
def candidate (orig : String) (k : Nat) : String :=
  let suffix := "_" ++ Nat.repr k
  pySliceTo orig (31 - (suffix.length : Int)) ++ suffix

/-- The label tried at loop round `k`: round 0 tests the truncated base
    itself, round `k + 1` tests `candidate` for counter `k + 1`. -/
def candAt (orig : String) : Nat → String
  | 0 => orig
  | k + 1 => candidate orig (k + 1)

/-- The collision `while` loop of lines 236-239, with explicit fuel;
    `allocate_label_first_free` below shows the fuel given
    by `allocate_label` is never exhausted. -/
def allocTry (used : List String) (orig : String) : Nat → Nat → String
  | 0, k => candAt orig k
  | fuel + 1, k =>
    if candAt orig k ∈ used then allocTry used orig fuel (k + 1) else candAt orig k

/-- Lines 233-239: truncate the desired name to 31 characters, then walk
    counters 1, 2, ... until a label not in `used` is found. -/
def allocate_label (desired : String) (used : List String) : String :=
  allocTry used (pySliceTo desired 31) (used.length + 1) 0

/-! ## Filename helpers (main.py lines 147-165) -/

/-- `os.path.basename`: the part after the last slash. -/
def pyBasename (s : String) : String :=
  ⟨(splitOnChar '/' s.data).getLastD []⟩

/-- Index of the last occurrence of `c`, if any. -/
def lastIdxOf (cs : List Char) (c : Char) : Option Nat :=
  ((cs.enum.filter (fun e => decide (e.2 = c))).getLast?).map (·.1)

/-- `os.path.splitext(s)[0]`: drop the last dot-extension of the final
    path segment, unless the dots are all leading dots of that segment. -/
def splitextStem (s : String) : String :=
  let cs := s.data
  match lastIdxOf cs '.' with
  | none => s
  | some di =>
    let start := match lastIdxOf cs '/' with
      | some si => si + 1
      | none => 0
    if di ≤ start then s
    else if ((cs.drop start).take (di - start)).all (fun c => c = '.') then s
    else ⟨cs.take di⟩

/-- `extract_date_from_filename(filename)` (lines 158-165): the part of
    the extension-stripped basename after the last underscore, or the
    empty string when there is no underscore. -/
def extract_date_from_filename (filename : String) : String :=
  let nameNoExt := splitextStem (pyBasename filename)
  let parts := (splitOnChar '_' nameNoExt.data).map (fun g => (⟨g⟩ : String))
  if parts.length ≥ 2 then parts.getLastD "" else ""

/-! ## Client summary builder (`create_summary_for_client`, main.py lines 167-256,
    and the per-client loop of `create_summary_files`, lines 300-309) -/

/-- The collaborators `create_summary_for_client` consumes from its
    environment: the workbook obtained by copying and re-opening the
    template file (lines 176-179), the per-file `load_workbook` of line
    210 yielding the active worksheet or an exception, and the outcome
    of `summary_wb.save` at line 254. Filesystem enumeration and the
    roster are outside the core, per the spec's scope. -/
structure BuildEnv where
  templateHeap : StyleHeap
  templateWb : Workbook
  loadClient : String → Except String Worksheet
  saveResult : Except String Unit

/-- Lines 182-189: sanitize the fresh copy, then drop the
    `Calculations` sheet if present. -/
def prepWorkbook (wb : Workbook) : Workbook :=
  let wb1 := remove_external_links wb
  if "Calculations" ∈ sheetNames wb1 then removeSheet wb1 "Calculations" else wb1

/-- The body of the per-file loop (lines 205-250) acting on the running
    state (heap, workbook, tabs_created). The only fallible step, the
    `load_workbook` call, happens before any mutation, so the
    `except ... continue` of lines 248-250 leaves the state unchanged. -/
def processFile (env : BuildEnv) (tab1 : Worksheet)
    (st : StyleHeap × Workbook × Nat) (f : String) : StyleHeap × Workbook × Nat :=
  match env.loadClient f with
  | .error _ => st
  | .ok clientWs =>
    let sheetDate := extract_date_from_sheet clientWs
    let sd := match sheetDate with
      | some d => d
      | none => extract_date_from_filename f
    let base := if sd ≠ "" then sd else splitextStem (pyBasename f)
    let nm := allocate_label base (sheetNames st.2.1)
    let r := copy_tab1_format_with_client_data st.1 st.2.1 tab1 clientWs nm
    (r.1, r.2.1, st.2.2 + 1)

/-- `create_summary_for_client(client_name, client_files_list)`:
    prepare the template copy, require the `tab1` style source (else
    report failure), process the files sorted by filename date token,
    then save; the saved outcome carries the reported tab count. An
    exception from `save` propagates (there is no handler around it). -/
def create_summary_for_client (env : BuildEnv) (files : List String) :
    Except String (Bool × Nat) :=
  let wb2 := prepWorkbook env.templateWb
  match getSheet wb2 "tab1" with
  | none => .ok (false, 0)
  | some tab1 =>
    let sorted := files.mergeSort
      (fun a b => decide (extract_date_from_filename a ≤ extract_date_from_filename b))
    let st := sorted.foldl (processFile env tab1) (env.templateHeap, wb2, 0)
    match env.saveResult with
    | .ok _ => .ok (true, st.2.2)
    | .error e => .error e

/-- The per-client loop of `create_summary_files` (lines 300-309): each
    client's outcome is appended to the success or failure report; the
    call itself is not guarded, so an exception escaping
    `create_summary_for_client` aborts the whole loop. -/
def create_summary_files (clients : List (String × BuildEnv × List String)) :
    Except String (List String × List String) :=
  clients.foldlM
    (fun acc c =>
      (create_summary_for_client c.2.1 c.2.2).map
        (fun r => if r.1 then (acc.1 ++ [c.1], acc.2) else (acc.1, acc.2 ++ [c.1])))
    ([], [])


/-! ## Ground lemmas: cell lookup and mutation -/

theorem find?_upsert_self (l : List (Coord × SCell)) (p : Coord) (f : SCell → SCell) :
    ((upsertCells p f l).find? (fun e => decide (e.1 = p))).map (·.2)
      = some (f (((l.find? (fun e => decide (e.1 = p))).map (·.2)).getD defaultSCell)) := by
  induction l with
  | nil => simp [upsertCells]
  | cons e t ih =>
    by_cases he : e.1 = p
    · simp [upsertCells, he]
    · simp [upsertCells, he, ih]

theorem find?_upsert_ne (l : List (Coord × SCell)) (p q : Coord) (f : SCell → SCell)
    (h : q ≠ p) :
    (upsertCells p f l).find? (fun e => decide (e.1 = q))
      = l.find? (fun e => decide (e.1 = q)) := by
  induction l with
  | nil =>
    have : ¬ p = q := fun hh => h hh.symm
    simp [upsertCells, this]
  | cons e t ih =>
    have hpq : ¬ p = q := fun hh => h hh.symm
    by_cases he : e.1 = p
    · have hne : ¬ e.1 = q := by rw [he]; exact hpq
      simp [upsertCells, he, hne, hpq]
    · by_cases hq : e.1 = q
      · simp [upsertCells, he, hq, h, hpq]
      · simp [upsertCells, he, hq, ih]

theorem lookupCell_cellOp_self (ws : Worksheet) (p : Coord) (f : SCell → SCell) :
    lookupCell (cellOp ws p f) p = some (f ((lookupCell ws p).getD defaultSCell)) := by
  have h := find?_upsert_self ws.cells p f
  simpa [lookupCell, cellOp, Option.getD_map] using h

theorem lookupCell_cellOp_ne (ws : Worksheet) (p q : Coord) (f : SCell → SCell)
    (h : q ≠ p) :
    lookupCell (cellOp ws p f) q = lookupCell ws q := by
  simp [lookupCell, cellOp, find?_upsert_ne _ _ _ _ h]

theorem lookupCell_cellOp_exists (ws : Worksheet) (p q : Coord) (f : SCell → SCell) (c : SCell)
    (h : lookupCell ws q = some c) :
    ∃ c₂, lookupCell (cellOp ws p f) q = some c₂ := by
  by_cases hq : q = p
  · subst hq
    exact ⟨_, lookupCell_cellOp_self ws q f⟩
  · exact ⟨c, by rw [lookupCell_cellOp_ne ws p q f hq]; exact h⟩

theorem cellOp_colWidths (ws : Worksheet) (p : Coord) (f : SCell → SCell) :
    (cellOp ws p f).colWidths = ws.colWidths := rfl

theorem cellOp_rowHeights (ws : Worksheet) (p : Coord) (f : SCell → SCell) :
    (cellOp ws p f).rowHeights = ws.rowHeights := rfl

theorem cellOp_merged (ws : Worksheet) (p : Coord) (f : SCell → SCell) :
    (cellOp ws p f).merged = ws.merged := rfl

theorem cellOp_name (ws : Worksheet) (p : Coord) (f : SCell → SCell) :
    (cellOp ws p f).name = ws.name := rfl

theorem find?_map_values (l : List (Coord × SCell)) (g : SCell → SCell) (p : Coord) :
    (l.map (fun e => (e.1, g e.2))).find? (fun e => decide (e.1 = p))
      = (l.find? (fun e => decide (e.1 = p))).map (fun e => (e.1, g e.2)) := by
  induction l with
  | nil => rfl
  | cons e t ih =>
    by_cases h : e.1 = p
    · simp [h]
    · simp [h, ih]

/-! ## The sanitizer clears exactly the bracketed external formulas (C2) -/

theorem lookupCell_sanitizeSheet (ws : Worksheet) (p : Coord) :
    lookupCell (sanitizeSheet ws) p = (lookupCell ws p).map sanitizeCell := by
  show ((ws.cells.map (fun e => (e.1, sanitizeCell e.2))).find? (fun e => decide (e.1 = p))).map (·.2)
      = ((ws.cells.find? (fun e => decide (e.1 = p))).map (·.2)).map sanitizeCell
  rw [find?_map_values]
  cases h : ws.cells.find? (fun e => decide (e.1 = p)) <;> rfl

theorem valueAt_sanitizeSheet (ws : Worksheet) (p : Coord) :
    valueAt (sanitizeSheet ws) p
      = (if shouldClear (valueAt ws p) then CellValue.empty else valueAt ws p) := by
  unfold valueAt
  rw [lookupCell_sanitizeSheet]
  cases h : lookupCell ws p with
  | none => simp [shouldClear]
  | some c =>
    by_cases hc : shouldClear c.value
    · simp [sanitizeCell, hc]
    · simp [sanitizeCell, hc]

/-- The clearing condition as the amended claim words it: the value is a
    string that is a formula (begins with the formula marker) containing
    both an opening and a closing bracket, and either the bracketed
    `.xl` external-workbook pattern or a single-quote character occurs
    in it. -/
def clearedBySpec (v : CellValue) : Bool :=
  match v with
  | .str s =>
    (match s.data with | '=' :: _ => true | _ => false) &&
    s.data.contains '[' && s.data.contains ']' &&
    (hasBracketXl s.data || s.data.contains '\'')
  | _ => false

theorem shouldClear_eq_clearedBySpec (v : CellValue) :
    shouldClear v = clearedBySpec v := by
  cases v with
  | str s =>
    show (truthy (.str s) &&
          (hasBracketXl s.data || s.data.contains '\'') &&
          (match s.data with | '=' :: _ => true | _ => false) &&
          (s.data.contains '[' && s.data.contains ']'))
        = ((match s.data with | '=' :: _ => true | _ => false) &&
           s.data.contains '[' && s.data.contains ']' &&
           (hasBracketXl s.data || s.data.contains '\''))
    cases hm : (match s.data with | '=' :: _ => true | _ => false) with
    | false => simp [hm]
    | true =>
      have htr : truthy (.str s) = true := by
        cases s with
        | mk data =>
          cases data with
          | nil => exact absurd hm (by simp)
          | cons c cs =>
            simp only [truthy, ne_eq, decide_eq_true_eq]
            intro hh
            exact List.noConfusion (congrArg String.data hh)
      rw [htr]
      cases hasBracketXl s.data <;> cases s.data.contains '\'' <;>
        cases s.data.contains '[' <;> cases s.data.contains ']' <;> rfl
  | empty => rfl
  | num n => rfl
  | date d => rfl
  | boolean b => rfl

/-- Sample workbook for the C2 counterexample: one sheet holding a
    formula whose only external-looking marker is a single-quoted sheet
    qualifier, with no brackets. -/
def wbQuoted : Workbook :=
  ⟨[⟨"Data", [((1, 1), ⟨.str "='Book2'!A1", none⟩)], [], [], []⟩]⟩

/-- C2 counterexample. The claim states that a formula matching the
    single-quoted external sheet qualifier alternative is cleared even
    without brackets. At the concrete cell value `='Book2'!A1` — a
    string that begins with the formula marker and contains a
    single-quote qualifier but no brackets — `remove_external_links`
    leaves the cell unchanged instead of clearing it. -/
theorem remove_external_links_keeps_quoted_formula :
    "='Book2'!A1".data.head? = some '=' ∧
    "='Book2'!A1".data.contains '\'' = true ∧
    ((remove_external_links wbQuoted).sheets[0]?).map (fun ws => valueAt ws (1, 1))
      = some (.str "='Book2'!A1") ∧
    CellValue.str "='Book2'!A1" ≠ CellValue.empty := by
  refine ⟨by decide, by decide, ?_, by decide⟩
  decide

/-- C2 (amended): `remove_external_links` clears a cell value if and
    only if it is a string that begins with the formula marker, contains
    both an opening and a closing bracket, and either matches the
    bracketed `.xl` external-workbook pattern or contains a single
    quote; every other cell value — in particular any non-formula text
    and any formula without brackets — is left unchanged. -/
theorem remove_external_links_clears_iff (wb : Workbook) (i : Nat) (p : Coord) :
    ((remove_external_links wb).sheets[i]?).map (fun ws => valueAt ws p)
      = (wb.sheets[i]?).map
          (fun ws => if clearedBySpec (valueAt ws p) then CellValue.empty else valueAt ws p) := by
  show ((wb.sheets.map sanitizeSheet)[i]?).map (fun ws => valueAt ws p) = _
  rw [List.getElem?_map]
  cases h : wb.sheets[i]? with
  | none => rfl
  | some ws =>
    simp [valueAt_sanitizeSheet, shouldClear_eq_clearedBySpec]

/-! ## The date resolver is a single row-major scan (C1) -/

theorem findSome?_append_none {α β : Type _} (l1 l2 : List α) (f : α → Option β)
    (h : ∀ x ∈ l1, f x = none) :
    (l1 ++ l2).findSome? f = l2.findSome? f := by
  induction l1 with
  | nil => rfl
  | cons a t ih =>
    have ha : f a = none := h a (by simp)
    rw [List.cons_append, List.findSome?_cons, ha]
    exact ih (fun x hx => h x (by simp [hx]))

/-- Sample worksheet for the C1 counterexample: a parseable date string
    at (1,1), a native date at (2,2). -/
def wsScanOrder : Worksheet :=
  ⟨"Sheet1",
   [((1, 1), ⟨.str "2024-01-01", none⟩), ((2, 2), ⟨.date ⟨2024, 5, 6⟩, none⟩)],
   [], [], []⟩

/-- C1 counterexample. The claim states that a native date anywhere in
    the probe window wins over parseable date strings. On a worksheet
    whose window holds the native date 2024-05-06 at (2,2) and the
    parseable string "2024-01-01" at (1,1), `extract_date_from_sheet`
    returns the string's date, not the native one's canonical form. -/
theorem extract_date_string_beats_native :
    valueAt wsScanOrder (2, 2) = .date ⟨2024, 5, 6⟩ ∧
    extract_date_from_sheet wsScanOrder = some "20240101" ∧
    some "20240101" ≠ some (formatYYYYMMDD ⟨2024, 5, 6⟩) := by
  refine ⟨by decide, ?_, by decide⟩
  decide

/-- C1 (amended): the resolver performs one row-major scan of the 5 x 5
    window; the first cell that yields a date — a truthy native
    date/time value, or a truthy string parseable by one of the four
    formats — determines the result. In particular a native date at
    some window position is returned, formatted `YYYYMMDD`, exactly
    when every cell before it in row-major order yields neither a
    native date nor a parseable string. -/
theorem extract_date_first_hit (ws : Worksheet) (pre post : List Coord) (r c : Nat)
    (d : PyDate) (hw : windowCoords = pre ++ (r, c) :: post)
    (hpre : ∀ q ∈ pre, dateFromCellValue (valueAt ws q) = none)
    (hd : valueAt ws (r, c) = .date d) :
    extract_date_from_sheet ws = some (formatYYYYMMDD d) := by
  unfold extract_date_from_sheet
  rw [hw, findSome?_append_none _ _ _ hpre, List.findSome?_cons, hd]
  rfl

/-- Witness worksheet: a native date at the very first window cell. -/
def wsNativeFirst : Worksheet :=
  ⟨"Sheet1", [((1, 1), ⟨.date ⟨2024, 5, 6⟩, none⟩)], [], [], []⟩

/-- Witness for the amended C1 theorem at a concrete worksheet. -/
theorem extract_date_first_hit_witness :
    windowCoords = [] ++ (1, 1) :: windowCoords.drop 1 ∧
    valueAt wsNativeFirst (1, 1) = .date ⟨2024, 5, 6⟩ ∧
    extract_date_from_sheet wsNativeFirst = some (formatYYYYMMDD ⟨2024, 5, 6⟩) :=
  ⟨by decide, by decide,
   extract_date_first_hit wsNativeFirst [] (windowCoords.drop 1) 1 1 ⟨2024, 5, 6⟩
     (by decide) (by intro q hq; exact absurd hq (List.not_mem_nil q)) (by decide)⟩

/-! ## Decimal digit strings: a clean recursion equal to `Nat.repr` -/

/-- Decimal digit characters of `n`, most significant first; the clean
    recursion `Nat.toDigitsCore` implements with fuel. -/
def decDigits (n : Nat) : List Char :=
  if _h : n < 10 then [Nat.digitChar n]
  else decDigits (n / 10) ++ [Nat.digitChar (n % 10)]
termination_by n
decreasing_by exact Nat.div_lt_self (by omega) (by omega)

theorem decDigits_lt (n : Nat) (h : n < 10) : decDigits n = [Nat.digitChar n] := by
  rw [decDigits, dif_pos h]

theorem decDigits_ge (n : Nat) (h : ¬ n < 10) :
    decDigits n = decDigits (n / 10) ++ [Nat.digitChar (n % 10)] := by
  rw [decDigits, dif_neg h]

theorem decDigits_ne_nil (n : Nat) : decDigits n ≠ [] := by
  rw [decDigits]
  split <;> simp

theorem toDigitsCore_eq_decDigits :
    ∀ (fuel n : Nat) (acc : List Char), n < fuel →
      Nat.toDigitsCore 10 fuel n acc = decDigits n ++ acc := by
  intro fuel
  induction fuel with
  | zero => intro n acc h; omega
  | succ fuel ih =>
    intro n acc h
    show (if n / 10 = 0 then Nat.digitChar (n % 10) :: acc
          else Nat.toDigitsCore 10 fuel (n / 10) (Nat.digitChar (n % 10) :: acc))
        = decDigits n ++ acc
    by_cases h0 : n / 10 = 0
    · have hn : n < 10 := by omega
      rw [if_pos h0, decDigits]
      simp [hn, Nat.mod_eq_of_lt hn]
    · have h10 : 10 ≤ n := by
        by_contra hc
        exact h0 (Nat.div_eq_of_lt (by omega))
      have hlt : n / 10 < fuel := by
        have := Nat.div_lt_self (by omega : 0 < n) (by omega : 1 < 10)
        omega
      rw [if_neg h0, ih (n / 10) _ hlt]
      conv_rhs => rw [decDigits_ge n (by omega)]
      simp

theorem repr_data (n : Nat) : (Nat.repr n).data = decDigits n := by
  show (Nat.toDigitsCore 10 (n + 1) n []).asString.data = decDigits n
  rw [toDigitsCore_eq_decDigits (n + 1) n [] (Nat.lt_succ_self n)]
  simp [List.asString]

theorem repr_length_eq (n : Nat) : (Nat.repr n).length = (decDigits n).length := by
  show (Nat.repr n).data.length = _
  rw [repr_data]

theorem digitChar_isDigit (m : Nat) (h : m < 10) : (Nat.digitChar m).isDigit = true := by
  interval_cases m <;> decide

theorem digitVal_digitChar (m : Nat) (h : m < 10) : digitVal (Nat.digitChar m) = m := by
  interval_cases m <;> decide

theorem decDigits_all_isDigit (n : Nat) : ∀ c ∈ decDigits n, c.isDigit = true := by
  induction n using Nat.strong_induction_on with
  | _ n ih =>
    rw [decDigits]
    split
    · intro c hc
      rw [List.mem_singleton] at hc
      subst hc
      exact digitChar_isDigit n (by omega)
    · intro c hc
      rcases List.mem_append.mp hc with h1 | h2
      · exact ih (n / 10) (Nat.div_lt_self (by omega) (by omega)) c h1
      · rw [List.mem_singleton] at h2
        subst h2
        exact digitChar_isDigit _ (Nat.mod_lt n (by omega))

theorem decDigits_inj : ∀ a b : Nat, decDigits a = decDigits b → a = b := by
  intro a
  induction a using Nat.strong_induction_on with
  | _ a ih =>
    intro b hab
    by_cases ha : a < 10 <;> by_cases hb : b < 10
    · rw [decDigits_lt a ha, decDigits_lt b hb] at hab
      have hc : Nat.digitChar a = Nat.digitChar b := by simpa using hab
      have hva := digitVal_digitChar a ha
      have hvb := digitVal_digitChar b hb
      rw [hc] at hva
      omega
    · exfalso
      rw [decDigits_lt a ha, decDigits_ge b hb] at hab
      have hlen := congrArg List.length hab
      have hpos : 1 ≤ (decDigits (b / 10)).length :=
        List.length_pos.mpr (decDigits_ne_nil (b / 10))
      simp only [List.length_append, List.length_cons, List.length_nil] at hlen
      omega
    · exfalso
      rw [decDigits_ge a ha, decDigits_lt b hb] at hab
      have hlen := congrArg List.length hab
      have hpos : 1 ≤ (decDigits (a / 10)).length :=
        List.length_pos.mpr (decDigits_ne_nil (a / 10))
      simp only [List.length_append, List.length_cons, List.length_nil] at hlen
      omega
    · rw [decDigits_ge a ha, decDigits_ge b hb] at hab
      obtain ⟨h1, h2⟩ := List.append_inj' hab (by simp)
      have hdiv : a / 10 = b / 10 :=
        ih (a / 10) (Nat.div_lt_self (by omega) (by omega)) (b / 10) h1
      have hmodc : Nat.digitChar (a % 10) = Nat.digitChar (b % 10) := by
        simpa using h2
      have hmod : a % 10 = b % 10 := by
        have hva := digitVal_digitChar (a % 10) (Nat.mod_lt a (by omega))
        have hvb := digitVal_digitChar (b % 10) (Nat.mod_lt b (by omega))
        rw [hmodc] at hva
        omega
      omega

theorem decDigits_length_lower : ∀ (e n : Nat), 10 ^ e ≤ n → e + 1 ≤ (decDigits n).length := by
  intro e
  induction e with
  | zero =>
    intro n _
    have := decDigits_ne_nil n
    have := List.length_pos.mpr this
    omega
  | succ e ih =>
    intro n hn
    have h10 : 10 ≤ n := le_trans (by calc 10 = 10 ^ 1 := by norm_num
                                         _ ≤ 10 ^ (e + 1) := Nat.pow_le_pow_right (by omega) (by omega)) hn
    rw [decDigits, dif_neg (by omega)]
    have hdiv : 10 ^ e ≤ n / 10 := by
      rw [Nat.le_div_iff_mul_le (by omega)]
      calc 10 ^ e * 10 = 10 ^ (e + 1) := by ring
        _ ≤ n := hn
    have := ih (n / 10) hdiv
    simp
    omega

theorem decDigits_length_upper : ∀ (e n : Nat), 0 < e → n < 10 ^ e → (decDigits n).length ≤ e := by
  intro e
  induction e with
  | zero => intro n h; omega
  | succ e ih =>
    intro n _ hn
    by_cases h : n < 10
    · rw [decDigits, dif_pos h]
      simp
    · have he : 0 < e := by
        by_contra hc
        have : e = 0 := by omega
        subst this
        simp at hn
        omega
      rw [decDigits, dif_neg h]
      have hdiv : n / 10 < 10 ^ e := by
        rw [Nat.div_lt_iff_lt_mul (by omega)]
        calc n < 10 ^ (e + 1) := hn
          _ = 10 ^ e * 10 := by ring
      have := ih (n / 10) he hdiv
      simp
      omega

/-! ## Candidate labels: structure and injectivity -/

/-- The number of characters Python `orig[:31 - sufLen]` keeps, given the
    lengths of `orig` and of the suffix. -/
def pyTakeAmt (len sufLen : Nat) : Nat :=
  if (31 - (sufLen : Int)) < 0 then ((len : Int) + (31 - (sufLen : Int))).toNat
  else (31 - (sufLen : Int)).toNat

theorem suffix_data (k : Nat) : ("_" ++ Nat.repr k).data = '_' :: decDigits k := by
  rw [String.data_append, repr_data]
  rfl

theorem suffix_length (k : Nat) : ("_" ++ Nat.repr k).length = 1 + (decDigits k).length := by
  rw [String.length_append, repr_length_eq]
  rfl

theorem candidate_data (orig : String) (k : Nat) :
    (candidate orig k).data
      = orig.data.take (pyTakeAmt orig.data.length (1 + (decDigits k).length))
        ++ '_' :: decDigits k := by
  show (pySliceTo orig (31 - ((("_" ++ Nat.repr k)).length : Int)) ++ ("_" ++ Nat.repr k)).data = _
  rw [String.data_append, suffix_data, suffix_length]
  rfl

theorem underscore_block_inj_le (t1 t2 d1 d2 : List Char)
    (hle : t1.length ≤ t2.length) (hd1 : '_' ∉ d1)
    (heq : t1 ++ '_' :: d1 = t2 ++ '_' :: d2) : d1 = d2 := by
  have hdrop := congrArg (List.drop t1.length) heq
  rw [List.drop_left] at hdrop
  rw [List.drop_append_eq_append_drop] at hdrop
  have hz : t1.length - t2.length = 0 := by omega
  rw [hz] at hdrop
  simp only [List.drop_zero] at hdrop
  cases hdt : t2.drop t1.length with
  | nil =>
    rw [hdt] at hdrop
    simpa using hdrop
  | cons c rest =>
    rw [hdt] at hdrop
    have hd : d1 = rest ++ '_' :: d2 := by
      injection hdrop
    exact absurd (by rw [hd]; exact List.mem_append_right rest (List.mem_cons_self _ _)) hd1

theorem underscore_block_inj (t1 t2 d1 d2 : List Char)
    (hd1 : '_' ∉ d1) (hd2 : '_' ∉ d2)
    (heq : t1 ++ '_' :: d1 = t2 ++ '_' :: d2) : d1 = d2 := by
  rcases Nat.le_total t1.length t2.length with h | h
  · exact underscore_block_inj_le t1 t2 d1 d2 h hd1 heq
  · exact (underscore_block_inj_le t2 t1 d2 d1 h hd2 heq.symm).symm

theorem underscore_not_in_decDigits (k : Nat) : '_' ∉ decDigits k := by
  intro hmem
  exact absurd (decDigits_all_isDigit k '_' hmem) (by decide)

theorem candidate_inj (orig : String) (k1 k2 : Nat)
    (h : candidate orig k1 = candidate orig k2) : k1 = k2 := by
  have hdata := congrArg String.data h
  rw [candidate_data, candidate_data] at hdata
  exact decDigits_inj k1 k2
    (underscore_block_inj _ _ _ _ (underscore_not_in_decDigits k1)
      (underscore_not_in_decDigits k2) hdata)

theorem candAt_inj (orig : String) (k1 k2 : Nat) (h1 : 1 ≤ k1) (h2 : 1 ≤ k2)
    (hne : k1 ≠ k2) : candAt orig k1 ≠ candAt orig k2 := by
  cases k1 with
  | zero => omega
  | succ a =>
    cases k2 with
    | zero => omega
    | succ b =>
      intro hc
      exact hne (candidate_inj orig _ _ hc)

/-! ## The collision loop always reaches a free label -/

theorem exists_free_candAt (orig : String) (used : List String) :
    ∃ k, k ≤ used.length + 1 ∧ candAt orig k ∉ used := by
  by_contra hc
  push_neg at hc
  have hinj : Function.Injective (fun i : Nat => candidate orig (i + 1)) := by
    intro a b hab
    have := candidate_inj orig (a + 1) (b + 1) hab
    omega
  have hnd : ((List.range (used.length + 1)).map (fun i => candidate orig (i + 1))).Nodup :=
    List.Nodup.map hinj (List.nodup_range (used.length + 1))
  have hsub : ((List.range (used.length + 1)).map (fun i => candidate orig (i + 1))) ⊆ used := by
    intro x hx
    rcases List.mem_map.mp hx with ⟨i, hi, rfl⟩
    have hile : i + 1 ≤ used.length + 1 := by
      have := List.mem_range.mp hi
      omega
    exact hc (i + 1) hile
  have hlen := List.Subperm.length_le (List.Nodup.subperm hnd hsub)
  simp at hlen

theorem allocTry_first_free (used : List String) (orig : String) :
    ∀ (fuel k : Nat), (∃ j, k ≤ j ∧ j ≤ k + fuel ∧ candAt orig j ∉ used) →
      ∃ j, k ≤ j ∧ allocTry used orig fuel k = candAt orig j ∧ candAt orig j ∉ used ∧
        ∀ i, k ≤ i → i < j → candAt orig i ∈ used := by
  intro fuel
  induction fuel with
  | zero =>
    intro k hex
    rcases hex with ⟨j, hkj, hjk, hfree⟩
    have hjeq : j = k := by omega
    subst hjeq
    exact ⟨j, Nat.le_refl j, rfl, hfree, fun i hi1 hi2 => absurd hi2 (by omega)⟩
  | succ fuel ih =>
    intro k hex
    by_cases hk : candAt orig k ∈ used
    · have hex2 : ∃ j, k + 1 ≤ j ∧ j ≤ (k + 1) + fuel ∧ candAt orig j ∉ used := by
        rcases hex with ⟨j, h1, h2, h3⟩
        refine ⟨j, ?_, by omega, h3⟩
        rcases Nat.eq_or_lt_of_le h1 with rfl | hlt
        · exact absurd hk h3
        · omega
      rcases ih (k + 1) hex2 with ⟨j, hj1, hj2, hj3, hj4⟩
      refine ⟨j, by omega, ?_, hj3, ?_⟩
      · show (if candAt orig k ∈ used then allocTry used orig fuel (k + 1)
              else candAt orig k) = _
        rw [if_pos hk]
        exact hj2
      · intro i hi1 hi2
        rcases Nat.eq_or_lt_of_le hi1 with rfl | hlt
        · exact hk
        · exact hj4 i (by omega) hi2
    · refine ⟨k, Nat.le_refl k, ?_, hk, fun i hi1 hi2 => absurd hi2 (by omega)⟩
      show (if candAt orig k ∈ used then allocTry used orig fuel (k + 1)
            else candAt orig k) = candAt orig k
      rw [if_neg hk]

/-- The allocator returns the first loop candidate that is free, and the
    loop never walks past index `used.length + 1`. -/
theorem allocate_label_first_free (desired : String) (used : List String) :
    ∃ j, allocate_label desired used = candAt (pySliceTo desired 31) j ∧
      candAt (pySliceTo desired 31) j ∉ used ∧ j ≤ used.length + 1 ∧
      ∀ i, i < j → candAt (pySliceTo desired 31) i ∈ used := by
  rcases exists_free_candAt (pySliceTo desired 31) used with ⟨k0, hk0, hfree0⟩
  rcases allocTry_first_free used (pySliceTo desired 31) (used.length + 1) 0
      ⟨k0, Nat.zero_le _, by omega, hfree0⟩ with ⟨j, _, hj2, hj3, hj4⟩
  refine ⟨j, hj2, hj3, ?_, fun i hi => hj4 i (Nat.zero_le i) hi⟩
  by_contra hcj
  push_neg at hcj
  exact hfree0 (hj4 k0 (Nat.zero_le _) (by omega))

theorem candAt_pos (orig : String) (k : Nat) (h : 0 < k) :
    candAt orig k = candidate orig k := by
  cases k with
  | zero => omega
  | succ a => rfl

theorem pySliceTo31_data (s : String) : (pySliceTo s 31).data = s.data.take 31 := by
  show s.data.take (if (31 : Int) < 0 then ((s.data.length : Int) + 31).toNat
                    else (31 : Int).toNat) = s.data.take 31
  rw [if_neg (by norm_num)]
  rfl

theorem pySliceTo31_length (s : String) : (pySliceTo s 31).length ≤ 31 := by
  show (pySliceTo s 31).data.length ≤ 31
  rw [pySliceTo31_data]
  exact List.length_take_le 31 s.data

theorem candidate_length_le (orig : String) (k : Nat)
    (hd : (decDigits k).length ≤ 30) : (candidate orig k).length ≤ 31 := by
  show (candidate orig k).data.length ≤ 31
  rw [candidate_data, List.length_append, List.length_cons]
  have hamt : pyTakeAmt orig.data.length (1 + (decDigits k).length)
      = 30 - (decDigits k).length := by
    unfold pyTakeAmt
    rw [if_neg (by push_cast; omega)]
    push_cast
    omega
  rw [hamt]
  have := List.length_take_le (30 - (decDigits k).length) orig.data
  omega

theorem candAt_length_le (orig : String) (k : Nat) (horig : orig.length ≤ 31)
    (hk : k < 10 ^ 30) : (candAt orig k).length ≤ 31 := by
  cases k with
  | zero => exact horig
  | succ a => exact candidate_length_le orig (a + 1) (decDigits_length_upper 30 (a + 1) (by norm_num) hk)

/-- C4 (amended): `allocate_label` always returns a label outside the
    used set; the truncated desired label itself when it is free, and
    otherwise the first free candidate of the counter walk. The
    31-character bound holds whenever the used set is smaller than
    `10 ^ 30 - 1` labels (so whenever the winning counter has at most 30
    digits); for astronomically larger used sets the never-truncated
    numeric suffix no longer fits and the bound fails. -/
theorem allocate_label_unique (desired : String) (used : List String) :
    allocate_label desired used ∉ used ∧
    (pySliceTo desired 31 ∉ used → allocate_label desired used = pySliceTo desired 31) ∧
    (∃ k, k ≤ used.length + 1 ∧
      allocate_label desired used = candAt (pySliceTo desired 31) k ∧
      ∀ i, i < k → candAt (pySliceTo desired 31) i ∈ used) ∧
    (used.length + 1 < 10 ^ 30 → (allocate_label desired used).length ≤ 31) := by
  rcases allocate_label_first_free desired used with ⟨j, hj, hfree, hjle, hmin⟩
  refine ⟨by rw [hj]; exact hfree, ?_, ⟨j, hjle, hj, hmin⟩, ?_⟩
  · intro h0
    have hj0 : j = 0 := by
      by_contra hne
      exact h0 (hmin 0 (by omega))
    rw [hj, hj0]
    rfl
  · intro hlt
    rw [hj]
    exact candAt_length_le _ j (pySliceTo31_length desired) (by omega)

/-- Witness for the amended C4 theorem at a concrete input, discharging
    the size hypothesis of the length bound. -/
theorem allocate_label_unique_witness :
    allocate_label "20240101" ["20240101", "tab1"] ∉ ["20240101", "tab1"] ∧
    (allocate_label "20240101" ["20240101", "tab1"]).length ≤ 31 :=
  ⟨(allocate_label_unique "20240101" ["20240101", "tab1"]).1,
   (allocate_label_unique "20240101" ["20240101", "tab1"]).2.2.2 (by norm_num)⟩

/-- The used set that exhausts every candidate of the first `10 ^ 30`
    loop rounds, forcing the winning counter to 31 digits. -/
def bigUsed : List String := (List.range (10 ^ 30)).map (candAt "d")

/-- C4 counterexample. The claim promises a label of at most 31
    characters for EVERY finite used set, but the numeric suffix is
    never truncated: on the (finite) used set holding all earlier
    candidates, the returned label is an underscore followed by the 31
    digits of `10 ^ 30` — 32 characters. -/
theorem allocate_label_length_cex :
    ¬ ((allocate_label "d" bigUsed).length ≤ 31) := by
  have horig : pySliceTo "d" 31 = "d" := by decide
  have hmem : ∀ i, i < 10 ^ 30 → candAt "d" i ∈ bigUsed := fun i hi =>
    List.mem_map.mpr ⟨i, List.mem_range.mpr hi, rfl⟩
  have hKlen : (decDigits (10 ^ 30)).length = 31 :=
    le_antisymm (decDigits_length_upper 31 _ (by norm_num) (by norm_num))
      (decDigits_length_lower 30 _ (by norm_num))
  have hKdata : (candidate "d" (10 ^ 30)).data = '_' :: decDigits (10 ^ 30) := by
    rw [candidate_data]
    have hz : pyTakeAmt "d".data.length (1 + (decDigits (10 ^ 30)).length) = 0 := by
      rw [hKlen]
      unfold pyTakeAmt
      rw [if_pos (by norm_num)]
      norm_num
    rw [hz]
    simp
  have hKlen2 : (candidate "d" (10 ^ 30)).length = 32 := by
    show (candidate "d" (10 ^ 30)).data.length = 32
    rw [hKdata, List.length_cons, hKlen]
  have hKfree : candAt "d" (10 ^ 30) ∉ bigUsed := by
    intro hin
    rcases List.mem_map.mp hin with ⟨i, hi, heq⟩
    have hilt := List.mem_range.mp hi
    cases i with
    | zero =>
      have h32 : (candAt "d" (10 ^ 30)).length = 32 := by
        rw [candAt_pos "d" _ (by norm_num)]
        exact hKlen2
      rw [← heq] at h32
      exact absurd h32 (by decide)
    | succ a =>
      rw [candAt_pos "d" (a + 1) (by omega), candAt_pos "d" _ (by norm_num)] at heq
      have := candidate_inj "d" (a + 1) (10 ^ 30) heq
      omega
  rcases allocate_label_first_free "d" bigUsed with ⟨j, hj, hfree, hjle, hmin⟩
  rw [horig] at hj hfree hmin
  have hj30 : j = 10 ^ 30 := by
    rcases Nat.lt_trichotomy j (10 ^ 30) with h | h | h
    · exact absurd (hmem j h) hfree
    · exact h
    · exact absurd (hmin (10 ^ 30) h) hKfree
  intro hlen
  rw [hj, hj30, candAt_pos "d" _ (by norm_num), hKlen2] at hlen
  omega

/-- C5: the collision loop terminates on every input: the candidates for
    distinct positive counters are pairwise distinct strings, so within
    the first `used.length + 1` loop rounds a label outside the finite
    used set is always reached. -/
theorem alloc_loop_terminates (orig : String) (used : List String) :
    (∀ k1 k2, 1 ≤ k1 → 1 ≤ k2 → k1 ≠ k2 → candAt orig k1 ≠ candAt orig k2) ∧
    (∃ k, k ≤ used.length + 1 ∧ candAt orig k ∉ used) :=
  ⟨fun k1 k2 h1 h2 hne => candAt_inj orig k1 k2 h1 h2 hne,
   exists_free_candAt orig used⟩

/-- Witness for the C5 theorem at a concrete input. -/
theorem alloc_loop_terminates_witness :
    candAt "x" 1 ≠ candAt "x" 2 ∧ ∃ k, k ≤ 2 ∧ candAt "x" k ∉ ["x"] :=
  ⟨(alloc_loop_terminates "x" ["x"]).1 1 2 (by norm_num) (by norm_num) (by norm_num),
   by simpa using (alloc_loop_terminates "x" ["x"]).2⟩

/-! ## Transplant lemmas: the formatting pass -/

theorem copyStylesStep_none (h : StyleHeap) (ws : Worksheet) (e : Coord × SCell)
    (hs : e.2.style = none) : copyStylesStep (h, ws) e = (h, cellOp ws e.1 id) := by
  simp [copyStylesStep, hs]

theorem copyStylesStep_some (h : StyleHeap) (ws : Worksheet) (e : Coord × SCell) (b : StyleB)
    (hs : e.2.style = some b) :
    copyStylesStep (h, ws) e
      = (h ++ copiedVals h b,
         cellOp ws e.1 (fun c => { c with style := some (freshBundle h b) })) := by
  simp [copyStylesStep, hs, copyCellStyle]

theorem copyStylesStep_heap (h : StyleHeap) (ws : Worksheet) (e : Coord × SCell) :
    ∃ ext, (copyStylesStep (h, ws) e).1 = h ++ ext := by
  cases hs : e.2.style with
  | none => exact ⟨[], by rw [copyStylesStep_none h ws e hs]; simp⟩
  | some b => exact ⟨copiedVals h b, by rw [copyStylesStep_some h ws e b hs]⟩

theorem copyStyles_heap_grows (l : List (Coord × SCell)) :
    ∀ (h : StyleHeap) (ws : Worksheet), ∃ ext, (l.foldl copyStylesStep (h, ws)).1 = h ++ ext := by
  induction l with
  | nil => exact fun h ws => ⟨[], by simp⟩
  | cons e t ih =>
    intro h ws
    show ∃ ext, (t.foldl copyStylesStep (copyStylesStep (h, ws) e)).1 = h ++ ext
    rcases copyStylesStep_heap h ws e with ⟨ext1, hext1⟩
    rcases ih (copyStylesStep (h, ws) e).1 (copyStylesStep (h, ws) e).2 with ⟨ext2, hext2⟩
    refine ⟨ext1 ++ ext2, ?_⟩
    rw [← List.append_assoc, ← hext1]
    simpa using hext2

theorem copyStyles_lookup_not_mem (l : List (Coord × SCell)) :
    ∀ (h : StyleHeap) (ws : Worksheet) (p : Coord), p ∉ l.map (fun e => e.1) →
      lookupCell (l.foldl copyStylesStep (h, ws)).2 p = lookupCell ws p := by
  induction l with
  | nil => intro h ws p _; rfl
  | cons e t ih =>
    intro h ws p hp
    have hpe : p ≠ e.1 := by
      intro hc
      exact hp (by simp [hc])
    have hpt : p ∉ t.map (fun e => e.1) := by
      intro hc
      exact hp (by simp [hc])
    show lookupCell (t.foldl copyStylesStep (copyStylesStep (h, ws) e)).2 p = lookupCell ws p
    cases hs : e.2.style with
    | none =>
      rw [copyStylesStep_none h ws e hs, ih _ _ p hpt, lookupCell_cellOp_ne ws e.1 p id hpe]
    | some b =>
      rw [copyStylesStep_some h ws e b hs, ih _ _ p hpt, lookupCell_cellOp_ne _ _ _ _ hpe]

theorem copyStyles_lookup_some (l : List (Coord × SCell)) :
    ∀ (h : StyleHeap) (ws : Worksheet) (p : Coord) (c : SCell), lookupCell ws p = some c →
      ∃ c₂, lookupCell (l.foldl copyStylesStep (h, ws)).2 p = some c₂ := by
  induction l with
  | nil => exact fun h ws p c hc => ⟨c, hc⟩
  | cons e t ih =>
    intro h ws p c hc
    show ∃ c₂, lookupCell (t.foldl copyStylesStep (copyStylesStep (h, ws) e)).2 p = some c₂
    cases hs : e.2.style with
    | none =>
      rcases lookupCell_cellOp_exists ws e.1 p id c hc with ⟨c₁, hc₁⟩
      rw [copyStylesStep_none h ws e hs]
      exact ih _ _ p c₁ hc₁
    | some b =>
      rcases lookupCell_cellOp_exists ws e.1 p _ c hc with ⟨c₁, hc₁⟩
      rw [copyStylesStep_some h ws e b hs]
      exact ih _ _ p c₁ hc₁

theorem derefStyle_append (h ext : StyleHeap) (i : Nat) (hi : i < h.length) :
    derefStyle (h ++ ext) i = derefStyle h i := by
  unfold derefStyle
  rw [List.getD_eq_getElem?_getD, List.getD_eq_getElem?_getD, List.getElem?_append_left hi]

theorem derefStyle_append_offset (h vs : StyleHeap) (j : Nat) :
    derefStyle (h ++ vs) (h.length + j) = derefStyle vs j := by
  unfold derefStyle
  rw [List.getD_eq_getElem?_getD, List.getD_eq_getElem?_getD,
    List.getElem?_append_right (by omega)]
  have hj : h.length + j - h.length = j := by omega
  rw [hj]

/-- Well-formed style references: every reference of `b` points into `h`. -/
def StyleB.wfIn (b : StyleB) (h : StyleHeap) : Prop :=
  b.font < h.length ∧ b.border < h.length ∧ b.fill < h.length ∧
  b.protection < h.length ∧ b.alignment < h.length

/-- The relation between a template bundle `b` over the pre-transplant
    heap and the transplanted bundle `bNew` over the post-transplant
    heap: the five style objects dereference to equal values, the five
    references are fresh (disjoint from every pre-existing reference),
    and the number format is carried over. -/
def copiedFrom (hOld hNew : StyleHeap) (b bNew : StyleB) : Prop :=
  derefStyle hNew bNew.font = derefStyle hOld b.font ∧
  derefStyle hNew bNew.border = derefStyle hOld b.border ∧
  derefStyle hNew bNew.fill = derefStyle hOld b.fill ∧
  derefStyle hNew bNew.protection = derefStyle hOld b.protection ∧
  derefStyle hNew bNew.alignment = derefStyle hOld b.alignment ∧
  bNew.numberFormat = b.numberFormat ∧
  hOld.length ≤ bNew.font ∧ hOld.length ≤ bNew.border ∧ hOld.length ≤ bNew.fill ∧
  hOld.length ≤ bNew.protection ∧ hOld.length ≤ bNew.alignment

theorem deref_fresh (h : StyleHeap) (b : StyleB) (ext : StyleHeap) :
    derefStyle ((h ++ copiedVals h b) ++ ext) (h.length + 0) = derefStyle h b.font ∧
    derefStyle ((h ++ copiedVals h b) ++ ext) (h.length + 1) = derefStyle h b.border ∧
    derefStyle ((h ++ copiedVals h b) ++ ext) (h.length + 2) = derefStyle h b.fill ∧
    derefStyle ((h ++ copiedVals h b) ++ ext) (h.length + 3) = derefStyle h b.protection ∧
    derefStyle ((h ++ copiedVals h b) ++ ext) (h.length + 4) = derefStyle h b.alignment := by
  rw [List.append_assoc]
  refine ⟨?_, ?_, ?_, ?_, ?_⟩ <;>
    rw [derefStyle_append_offset h (copiedVals h b ++ ext)] <;> rfl

theorem copyStyles_styled_cell (l : List (Coord × SCell)) :
    ∀ (h : StyleHeap) (ws : Worksheet) (p : Coord) (c : SCell) (b : StyleB),
      (l.map (fun e => e.1)).Nodup → (p, c) ∈ l → c.style = some b → StyleB.wfIn b h →
      ∃ c₂ b₂, lookupCell (l.foldl copyStylesStep (h, ws)).2 p = some c₂ ∧
        c₂.style = some b₂ ∧ copiedFrom h (l.foldl copyStylesStep (h, ws)).1 b b₂ := by
  induction l with
  | nil =>
    intro h ws p c b _ hmem
    exact absurd hmem (List.not_mem_nil _)
  | cons e t ih =>
    intro h ws p c b hnd hmem hb hwf
    rw [List.map_cons, List.nodup_cons] at hnd
    obtain ⟨hnd1, hndt⟩ := hnd
    rw [List.foldl_cons]
    rcases List.mem_cons.mp hmem with heq | hmem_t
    · subst heq
      rw [copyStylesStep_some h ws (p, c) b hb]
      have hlookup1 :
          lookupCell (cellOp ws (p, c).1 (fun c0 => { c0 with style := some (freshBundle h b) })) p
            = some ({ (lookupCell ws p).getD defaultSCell with style := some (freshBundle h b) }) :=
        lookupCell_cellOp_self ws p _
      have hfinal_look :
          lookupCell ((t.foldl copyStylesStep
              (h ++ copiedVals h b,
               cellOp ws (p, c).1 (fun c0 => { c0 with style := some (freshBundle h b) })))).2 p
            = lookupCell (cellOp ws (p, c).1
                (fun c0 => { c0 with style := some (freshBundle h b) })) p :=
        copyStyles_lookup_not_mem t _ _ p hnd1
      rcases copyStyles_heap_grows t (h ++ copiedVals h b)
          (cellOp ws (p, c).1 (fun c0 => { c0 with style := some (freshBundle h b) })) with
        ⟨ext, hext⟩
      refine ⟨_, freshBundle h b, by rw [hfinal_look, hlookup1], rfl, ?_⟩
      rw [hext]
      rcases deref_fresh h b ext with ⟨d1, d2, d3, d4, d5⟩
      refine ⟨?_, d2, d3, d4, d5, rfl, ?_, ?_, ?_, ?_, ?_⟩
      · simpa using d1
      all_goals
        simp [freshBundle]
    · cases hs : e.2.style with
      | none =>
        rw [copyStylesStep_none h ws e hs]
        exact ih h (cellOp ws e.1 id) p c b hndt hmem_t hb hwf
      | some be =>
        rw [copyStylesStep_some h ws e be hs]
        have hwf1 : StyleB.wfIn b (h ++ copiedVals h be) := by
          rcases hwf with ⟨w1, w2, w3, w4, w5⟩
          refine ⟨?_, ?_, ?_, ?_, ?_⟩ <;> (simp only [List.length_append]; omega)
        rcases ih (h ++ copiedVals h be)
            (cellOp ws e.1 (fun c0 => { c0 with style := some (freshBundle h be) }))
            p c b hndt hmem_t hb hwf1 with ⟨c₂, b₂, h1, h2, h3⟩
        refine ⟨c₂, b₂, h1, h2, ?_⟩
        rcases h3 with ⟨f1, f2, f3, f4, f5, fn, g1, g2, g3, g4, g5⟩
        rcases hwf with ⟨w1, w2, w3, w4, w5⟩
        simp only [List.length_append] at g1 g2 g3 g4 g5
        refine ⟨?_, ?_, ?_, ?_, ?_, fn, by omega, by omega, by omega, by omega, by omega⟩
        · rw [f1, derefStyle_append h (copiedVals h be) b.font w1]
        · rw [f2, derefStyle_append h (copiedVals h be) b.border w2]
        · rw [f3, derefStyle_append h (copiedVals h be) b.fill w3]
        · rw [f4, derefStyle_append h (copiedVals h be) b.protection w4]
        · rw [f5, derefStyle_append h (copiedVals h be) b.alignment w5]

/-! ## Transplant lemmas: the data overlay pass -/

theorem writeData_preserves_style (l : List (Coord × SCell)) :
    ∀ (ws : Worksheet) (p : Coord) (c : SCell), lookupCell ws p = some c →
      ∃ c₂, lookupCell (l.foldl writeDataStep ws) p = some c₂ ∧ c₂.style = c.style := by
  induction l with
  | nil => exact fun ws p c hc => ⟨c, hc, rfl⟩
  | cons e t ih =>
    intro ws p c hc
    rw [List.foldl_cons]
    by_cases hv : e.2.value = .empty
    · rw [show writeDataStep ws e = ws from by simp [writeDataStep, hv]]
      exact ih ws p c hc
    · rw [show writeDataStep ws e = cellOp ws e.1 (fun c0 => { c0 with value := e.2.value })
          from by simp [writeDataStep, hv]]
      by_cases hp : p = e.1
      · subst hp
        have hself := lookupCell_cellOp_self ws e.1 (fun c0 => { c0 with value := e.2.value })
        rw [hc] at hself
        rcases ih (cellOp ws e.1 (fun c0 => { c0 with value := e.2.value })) e.1 _ hself with
          ⟨c₂, hl, hstyle⟩
        exact ⟨c₂, hl, hstyle⟩
      · rcases ih (cellOp ws e.1 (fun c0 => { c0 with value := e.2.value })) p c
          (by rw [lookupCell_cellOp_ne ws e.1 p _ hp]; exact hc) with ⟨c₂, hl, hstyle⟩
        exact ⟨c₂, hl, hstyle⟩

theorem writeData_lookup_not_mem (l : List (Coord × SCell)) :
    ∀ (ws : Worksheet) (p : Coord), p ∉ l.map (fun e => e.1) →
      lookupCell (l.foldl writeDataStep ws) p = lookupCell ws p := by
  induction l with
  | nil => intro ws p _; rfl
  | cons e t ih =>
    intro ws p hp
    have hpe : p ≠ e.1 := fun hc => hp (by simp [hc])
    have hpt : p ∉ t.map (fun e => e.1) := fun hc => hp (by simp [hc])
    rw [List.foldl_cons]
    by_cases hv : e.2.value = .empty
    · rw [show writeDataStep ws e = ws from by simp [writeDataStep, hv]]
      exact ih ws p hpt
    · rw [show writeDataStep ws e = cellOp ws e.1 (fun c0 => { c0 with value := e.2.value })
          from by simp [writeDataStep, hv]]
      rw [ih _ p hpt, lookupCell_cellOp_ne ws e.1 p _ hpe]

theorem writeData_value (l : List (Coord × SCell)) :
    ∀ (ws : Worksheet) (p : Coord) (c : SCell),
      (l.map (fun e => e.1)).Nodup → (p, c) ∈ l → c.value ≠ .empty →
      ∃ c₂, lookupCell (l.foldl writeDataStep ws) p = some c₂ ∧ c₂.value = c.value := by
  induction l with
  | nil =>
    intro ws p c _ hmem
    exact absurd hmem (List.not_mem_nil _)
  | cons e t ih =>
    intro ws p c hnd hmem hval
    rw [List.map_cons, List.nodup_cons] at hnd
    obtain ⟨hnd1, hndt⟩ := hnd
    rw [List.foldl_cons]
    rcases List.mem_cons.mp hmem with heq | hmem_t
    · subst heq
      rw [show writeDataStep ws (p, c) = cellOp ws p (fun c0 => { c0 with value := c.value })
          from by simp [writeDataStep, hval]]
      rw [writeData_lookup_not_mem t _ p hnd1,
        lookupCell_cellOp_self ws p (fun c0 => { c0 with value := c.value })]
      exact ⟨_, rfl, rfl⟩
    · by_cases hv : e.2.value = .empty
      · rw [show writeDataStep ws e = ws from by simp [writeDataStep, hv]]
        exact ih ws p c hndt hmem_t hval
      · rw [show writeDataStep ws e = cellOp ws e.1 (fun c0 => { c0 with value := e.2.value })
            from by simp [writeDataStep, hv]]
        exact ih _ p c hndt hmem_t hval

theorem writeData_value_empty (l : List (Coord × SCell)) :
    ∀ (ws : Worksheet) (p : Coord), (∀ c, (p, c) ∈ l → c.value = .empty) →
      lookupCell (l.foldl writeDataStep ws) p = lookupCell ws p := by
  induction l with
  | nil => intro ws p _; rfl
  | cons e t ih =>
    intro ws p hp
    rw [List.foldl_cons]
    by_cases hv : e.2.value = .empty
    · rw [show writeDataStep ws e = ws from by simp [writeDataStep, hv]]
      exact ih ws p (fun c hc => hp c (by simp [hc]))
    · rw [show writeDataStep ws e = cellOp ws e.1 (fun c0 => { c0 with value := e.2.value })
          from by simp [writeDataStep, hv]]
      have hpe : p ≠ e.1 := by
        intro hc
        subst hc
        exact hv (hp e.2 (by simp))
      rw [ih _ p (fun c hc => hp c (by simp [hc])), lookupCell_cellOp_ne ws e.1 p _ hpe]

/-! ## Transplant lemmas: sheet-level fields -/

theorem copyStyles_fields (l : List (Coord × SCell)) :
    ∀ (h : StyleHeap) (ws : Worksheet),
      (l.foldl copyStylesStep (h, ws)).2.colWidths = ws.colWidths ∧
      (l.foldl copyStylesStep (h, ws)).2.rowHeights = ws.rowHeights ∧
      (l.foldl copyStylesStep (h, ws)).2.merged = ws.merged ∧
      (l.foldl copyStylesStep (h, ws)).2.name = ws.name := by
  induction l with
  | nil => exact fun h ws => ⟨rfl, rfl, rfl, rfl⟩
  | cons e t ih =>
    intro h ws
    rw [List.foldl_cons]
    cases hs : e.2.style with
    | none =>
      rw [copyStylesStep_none h ws e hs]
      exact ih h (cellOp ws e.1 id)
    | some b =>
      rw [copyStylesStep_some h ws e b hs]
      exact ih _ _

theorem writeData_fields (l : List (Coord × SCell)) :
    ∀ (ws : Worksheet),
      (l.foldl writeDataStep ws).colWidths = ws.colWidths ∧
      (l.foldl writeDataStep ws).rowHeights = ws.rowHeights ∧
      (l.foldl writeDataStep ws).merged = ws.merged ∧
      (l.foldl writeDataStep ws).name = ws.name := by
  induction l with
  | nil => exact fun ws => ⟨rfl, rfl, rfl, rfl⟩
  | cons e t ih =>
    intro ws
    rw [List.foldl_cons]
    by_cases hv : e.2.value = .empty
    · rw [show writeDataStep ws e = ws from by simp [writeDataStep, hv]]
      exact ih ws
    · rw [show writeDataStep ws e = cellOp ws e.1 (fun c0 => { c0 with value := e.2.value })
          from by simp [writeDataStep, hv]]
      exact ih _

theorem foldl_setAssoc_fresh (l : List (Nat × Int)) :
    ∀ (acc : List (Nat × Int)), (l.map (fun e => e.1)).Nodup →
      (∀ k, k ∈ acc.map (fun e => e.1) → k ∉ l.map (fun e => e.1)) →
      l.foldl (fun m (e : Nat × Int) => setAssoc m e.1 e.2) acc = acc ++ l := by
  induction l with
  | nil => intro acc _ _; simp
  | cons e t ih =>
    intro acc hnd hdisj
    rw [List.map_cons, List.nodup_cons] at hnd
    obtain ⟨hnd1, hndt⟩ := hnd
    rw [List.foldl_cons]
    have hnotin : ¬ acc.any (fun x => decide (x.1 = e.1)) := by
      intro hc
      rcases List.any_eq_true.mp hc with ⟨x, hx, hxe⟩
      have : x.1 ∈ acc.map (fun e => e.1) := List.mem_map.mpr ⟨x, hx, rfl⟩
      have := hdisj x.1 this
      simp at hxe
      exact this (by simp [hxe])
    rw [show setAssoc acc e.1 e.2 = acc ++ [(e.1, e.2)] from by simp [setAssoc, hnotin]]
    rw [ih (acc ++ [(e.1, e.2)]) hndt ?_]
    · simp
    · intro k hk
      rcases List.mem_map.mp hk with ⟨x, hx, rfl⟩
      rcases List.mem_append.mp hx with hxa | hxe
      · have := hdisj x.1 (List.mem_map.mpr ⟨x, hxa, rfl⟩)
        intro hc
        exact this (by simp [hc])
      · have : x = (e.1, e.2) := by simpa using hxe
        rw [this]
        exact hnd1

theorem foldl_append_singleton (l : List (Coord × Coord)) :
    ∀ (acc : List (Coord × Coord)), l.foldl (fun a r => a ++ [r]) acc = acc ++ l := by
  induction l with
  | nil => intro acc; simp
  | cons e t ih =>
    intro acc
    rw [List.foldl_cons, ih]
    simp

theorem transplant_fst (h : StyleHeap) (wb : Workbook) (tab1 clientWs : Worksheet)
    (newName : String) :
    (copy_tab1_format_with_client_data h wb tab1 clientWs newName).1
      = (formatPass h tab1 newName).1 := rfl

theorem transplant_sheet (h : StyleHeap) (wb : Workbook) (tab1 clientWs : Worksheet)
    (newName : String) :
    (copy_tab1_format_with_client_data h wb tab1 clientWs newName).2.2
      = clientWs.cells.foldl writeDataStep (dimensionsPass tab1 (formatPass h tab1 newName).2) :=
  rfl

theorem transplant_wb (h : StyleHeap) (wb : Workbook) (tab1 clientWs : Worksheet)
    (newName : String) :
    (copy_tab1_format_with_client_data h wb tab1 clientWs newName).2.1.sheets
      = wb.sheets ++ [(copy_tab1_format_with_client_data h wb tab1 clientWs newName).2.2] :=
  rfl

theorem lookupCell_dimensionsPass (tab1 ws : Worksheet) (p : Coord) :
    lookupCell (dimensionsPass tab1 ws) p = lookupCell ws p := rfl

theorem dimensionsPass_colWidths (tab1 ws : Worksheet) (hw : ws.colWidths = [])
    (hnd : (tab1.colWidths.map (fun e => e.1)).Nodup) :
    (dimensionsPass tab1 ws).colWidths = tab1.colWidths := by
  show tab1.colWidths.foldl (fun m (e : Nat × Int) => setAssoc m e.1 e.2) ws.colWidths
      = tab1.colWidths
  rw [hw, foldl_setAssoc_fresh tab1.colWidths [] hnd (by simp)]
  simp

theorem dimensionsPass_rowHeights (tab1 ws : Worksheet) (hw : ws.rowHeights = [])
    (hnd : (tab1.rowHeights.map (fun e => e.1)).Nodup) :
    (dimensionsPass tab1 ws).rowHeights = tab1.rowHeights := by
  show tab1.rowHeights.foldl (fun m (e : Nat × Int) => setAssoc m e.1 e.2) ws.rowHeights
      = tab1.rowHeights
  rw [hw, foldl_setAssoc_fresh tab1.rowHeights [] hnd (by simp)]
  simp

theorem dimensionsPass_merged (tab1 ws : Worksheet) (hw : ws.merged = []) :
    (dimensionsPass tab1 ws).merged = tab1.merged := by
  show tab1.merged.foldl (fun acc r => acc ++ [r]) ws.merged = tab1.merged
  rw [hw, foldl_append_singleton tab1.merged []]
  simp

/-! ## C6, C7, C9: the transplant theorems -/

/-- C6: every non-empty client cell value lands unchanged at the
    identical coordinate of the transplanted sheet, including
    coordinates outside the template's footprint (the data loop of
    main.py lines 96-101 iterates the client sheet, not the template). -/
theorem transplant_data_fidelity (h : StyleHeap) (wb : Workbook) (tab1 clientWs : Worksheet)
    (newName : String) (p : Coord) (c : SCell)
    (hnd : (clientWs.cells.map (fun e => e.1)).Nodup)
    (hmem : (p, c) ∈ clientWs.cells) (hne : c.value ≠ .empty) :
    ∃ c₂,
      lookupCell (copy_tab1_format_with_client_data h wb tab1 clientWs newName).2.2 p = some c₂ ∧
      c₂.value = c.value := by
  rw [transplant_sheet]
  exact writeData_value clientWs.cells _ p c hnd hmem hne

/-- Worksheets and heap for the transplant witnesses. -/
def heapW : StyleHeap := [⟨"F"⟩, ⟨"B"⟩, ⟨"I"⟩, ⟨"P"⟩, ⟨"A"⟩]

def tmplW : Worksheet :=
  ⟨"tab1", [((1, 1), ⟨.str "Header", some ⟨0, 1, 2, 3, 4, "0.00"⟩⟩)],
   [(1, 10)], [(1, 20)], [((1, 1), (1, 2))]⟩

def clientW : Worksheet :=
  ⟨"Sheet1", [((1, 1), ⟨.num 7, none⟩), ((9, 9), ⟨.str "far", none⟩)], [], [], []⟩

/-- Witness for C6 at a concrete transplant: the client value at (9,9),
    a coordinate the template never styled, survives unchanged. -/
theorem transplant_data_fidelity_witness :
    ∃ c₂,
      lookupCell (copy_tab1_format_with_client_data heapW ⟨[tmplW]⟩ tmplW clientW "t").2.2 (9, 9)
        = some c₂ ∧
      c₂.value = CellValue.str "far" :=
  transplant_data_fidelity heapW ⟨[tmplW]⟩ tmplW clientW "t" (9, 9) ⟨.str "far", none⟩
    (by decide) (by decide) (by decide)

/-- C7: the transplant only appends the new sheet to the workbook
    (no existing sheet, in particular not the template, is replaced),
    the style heap only grows, and every styled template cell yields a
    cell at the same coordinate of the new sheet whose style bundle
    dereferences to equal style values through references that are all
    fresh — distinct from the template's references — so later edits to
    either sheet's style objects cannot affect the other. -/
theorem transplant_style_fidelity (h : StyleHeap) (wb : Workbook) (tab1 clientWs : Worksheet)
    (newName : String) (p : Coord) (c : SCell) (b : StyleB)
    (hnd : (tab1.cells.map (fun e => e.1)).Nodup)
    (hmem : (p, c) ∈ tab1.cells) (hb : c.style = some b) (hwf : StyleB.wfIn b h) :
    (copy_tab1_format_with_client_data h wb tab1 clientWs newName).2.1.sheets
        = wb.sheets ++ [(copy_tab1_format_with_client_data h wb tab1 clientWs newName).2.2] ∧
    (∃ ext, (copy_tab1_format_with_client_data h wb tab1 clientWs newName).1 = h ++ ext) ∧
    ∃ c₂ b₂,
      lookupCell (copy_tab1_format_with_client_data h wb tab1 clientWs newName).2.2 p = some c₂ ∧
      c₂.style = some b₂ ∧
      copiedFrom h (copy_tab1_format_with_client_data h wb tab1 clientWs newName).1 b b₂ ∧
      b₂.font ≠ b.font ∧ b₂.border ≠ b.border ∧ b₂.fill ≠ b.fill ∧
      b₂.protection ≠ b.protection ∧ b₂.alignment ≠ b.alignment := by
  refine ⟨transplant_wb h wb tab1 clientWs newName, ?_, ?_⟩
  · rw [transplant_fst]
    exact copyStyles_heap_grows tab1.cells h ⟨newName, [], [], [], []⟩
  · rcases copyStyles_styled_cell tab1.cells h ⟨newName, [], [], [], []⟩ p c b hnd hmem hb hwf
      with ⟨c₁, b₂, hl1, hs1, hcf⟩
    have hl1d : lookupCell (dimensionsPass tab1 (formatPass h tab1 newName).2) p = some c₁ := by
      rw [lookupCell_dimensionsPass]
      exact hl1
    rcases writeData_preserves_style clientWs.cells _ p c₁ hl1d with ⟨c₂, hl2, hs2⟩
    rcases hcf with ⟨f1, f2, f3, f4, f5, fn, g1, g2, g3, g4, g5⟩
    rcases hwf with ⟨w1, w2, w3, w4, w5⟩
    refine ⟨c₂, b₂, ?_, by rw [hs2]; exact hs1, ?_, by omega, by omega, by omega, by omega, by omega⟩
    · rw [transplant_sheet]
      exact hl2
    · rw [transplant_fst]
      exact ⟨f1, f2, f3, f4, f5, fn, g1, g2, g3, g4, g5⟩

/-- Witness for C7 at a concrete transplant. -/
theorem transplant_style_fidelity_witness :
    (copy_tab1_format_with_client_data heapW ⟨[tmplW]⟩ tmplW clientW "t").2.1.sheets
        = (⟨[tmplW]⟩ : Workbook).sheets
          ++ [(copy_tab1_format_with_client_data heapW ⟨[tmplW]⟩ tmplW clientW "t").2.2] ∧
    (∃ ext, (copy_tab1_format_with_client_data heapW ⟨[tmplW]⟩ tmplW clientW "t").1
        = heapW ++ ext) ∧
    ∃ c₂ b₂,
      lookupCell (copy_tab1_format_with_client_data heapW ⟨[tmplW]⟩ tmplW clientW "t").2.2 (1, 1)
        = some c₂ ∧
      c₂.style = some b₂ ∧
      copiedFrom heapW (copy_tab1_format_with_client_data heapW ⟨[tmplW]⟩ tmplW clientW "t").1
        (⟨0, 1, 2, 3, 4, "0.00"⟩ : StyleB) b₂ ∧
      b₂.font ≠ (0 : Nat) ∧ b₂.border ≠ (1 : Nat) ∧ b₂.fill ≠ (2 : Nat) ∧
      b₂.protection ≠ (3 : Nat) ∧ b₂.alignment ≠ (4 : Nat) :=
  transplant_style_fidelity heapW ⟨[tmplW]⟩ tmplW clientW "t" (1, 1)
    ⟨.str "Header", some ⟨0, 1, 2, 3, 4, "0.00"⟩⟩ ⟨0, 1, 2, 3, 4, "0.00"⟩
    (by decide) (by decide) rfl
    ⟨by decide, by decide, by decide, by decide, by decide⟩

theorem formatPass_eq (h : StyleHeap) (tab1 : Worksheet) (newName : String) :
    formatPass h tab1 newName
      = tab1.cells.foldl copyStylesStep (h, ⟨newName, [], [], [], []⟩) := rfl

theorem cellOp_value_preserving (ws : Worksheet) (p q : Coord) (f : SCell → SCell)
    (hf : ∀ x, (f x).value = x.value)
    (hws : ∀ c0, lookupCell ws q = some c0 → c0.value = .empty) :
    ∀ c0, lookupCell (cellOp ws p f) q = some c0 → c0.value = .empty := by
  intro c0 hc0
  by_cases hq : q = p
  · subst hq
    rw [lookupCell_cellOp_self] at hc0
    have hc0' : c0 = f ((lookupCell ws q).getD defaultSCell) := (Option.some.inj hc0).symm
    rw [hc0', hf]
    cases hl : lookupCell ws q with
    | none => rfl
    | some c => exact hws c hl
  · rw [lookupCell_cellOp_ne ws p q f hq] at hc0
    exact hws c0 hc0

theorem copyStyles_cell_exists (l : List (Coord × SCell)) :
    ∀ (h : StyleHeap) (ws : Worksheet) (p : Coord) (c : SCell), (p, c) ∈ l →
      ∃ c₂, lookupCell (l.foldl copyStylesStep (h, ws)).2 p = some c₂ := by
  induction l with
  | nil =>
    intro h ws p c hmem
    exact absurd hmem (List.not_mem_nil _)
  | cons e t ih =>
    intro h ws p c hmem
    rw [List.foldl_cons]
    rcases List.mem_cons.mp hmem with heq | hmem_t
    · subst heq
      cases hs : ((p, c) : Coord × SCell).2.style with
      | none =>
        rw [copyStylesStep_none h ws (p, c) hs]
        exact copyStyles_lookup_some t _ _ p _ (lookupCell_cellOp_self ws p id)
      | some b =>
        rw [copyStylesStep_some h ws (p, c) b hs]
        exact copyStyles_lookup_some t _ _ p _ (lookupCell_cellOp_self ws p _)
    · cases hs : e.2.style with
      | none =>
        rw [copyStylesStep_none h ws e hs]
        exact ih _ _ p c hmem_t
      | some b =>
        rw [copyStylesStep_some h ws e b hs]
        exact ih _ _ p c hmem_t

theorem copyStyles_value_all_empty (l : List (Coord × SCell)) :
    ∀ (h : StyleHeap) (ws : Worksheet) (p : Coord),
      (∀ c0, lookupCell ws p = some c0 → c0.value = .empty) →
      ∀ c₂, lookupCell (l.foldl copyStylesStep (h, ws)).2 p = some c₂ → c₂.value = .empty := by
  induction l with
  | nil => exact fun h ws p hws c₂ hc => hws c₂ hc
  | cons e t ih =>
    intro h ws p hws c₂ hc
    rw [List.foldl_cons] at hc
    cases hs : e.2.style with
    | none =>
      rw [copyStylesStep_none h ws e hs] at hc
      exact ih _ _ p (cellOp_value_preserving ws e.1 p id (fun x => rfl) hws) c₂ hc
    | some b =>
      rw [copyStylesStep_some h ws e b hs] at hc
      exact ih _ _ p (cellOp_value_preserving ws e.1 p
        (fun c => { c with style := some (freshBundle h b) }) (fun x => rfl) hws) c₂ hc

/-- C9: the transplant copies the template's column widths, row heights
    and merged ranges onto the new sheet, but never its cell values: at
    a coordinate where the template holds a non-empty value and the
    client sheet holds nothing non-empty, the transplanted cell exists
    and its value is empty. -/
theorem transplant_no_template_values (h : StyleHeap) (wb : Workbook)
    (tab1 clientWs : Worksheet) (newName : String) (p : Coord) (ct : SCell)
    (hndw : (tab1.colWidths.map (fun e => e.1)).Nodup)
    (hndh : (tab1.rowHeights.map (fun e => e.1)).Nodup)
    (hmem : (p, ct) ∈ tab1.cells) (htv : ct.value ≠ .empty)
    (hclient : ∀ c, (p, c) ∈ clientWs.cells → c.value = .empty) :
    (copy_tab1_format_with_client_data h wb tab1 clientWs newName).2.2.colWidths
        = tab1.colWidths ∧
    (copy_tab1_format_with_client_data h wb tab1 clientWs newName).2.2.rowHeights
        = tab1.rowHeights ∧
    (copy_tab1_format_with_client_data h wb tab1 clientWs newName).2.2.merged = tab1.merged ∧
    ∃ c₂,
      lookupCell (copy_tab1_format_with_client_data h wb tab1 clientWs newName).2.2 p = some c₂ ∧
      c₂.value = .empty := by
  rw [transplant_sheet, formatPass_eq]
  obtain ⟨hW, hH, hM, _⟩ :=
    writeData_fields clientWs.cells
      (dimensionsPass tab1 (tab1.cells.foldl copyStylesStep (h, ⟨newName, [], [], [], []⟩)).2)
  obtain ⟨hFW, hFH, hFM, _⟩ := copyStyles_fields tab1.cells h ⟨newName, [], [], [], []⟩
  refine ⟨?_, ?_, ?_, ?_⟩
  · rw [hW]
    exact dimensionsPass_colWidths tab1 _ hFW hndw
  · rw [hH]
    exact dimensionsPass_rowHeights tab1 _ hFH hndh
  · rw [hM]
    exact dimensionsPass_merged tab1 _ hFM
  · rw [writeData_value_empty clientWs.cells
      (dimensionsPass tab1 (tab1.cells.foldl copyStylesStep (h, ⟨newName, [], [], [], []⟩)).2)
      p hclient, lookupCell_dimensionsPass]
    rcases copyStyles_cell_exists tab1.cells h ⟨newName, [], [], [], []⟩ p ct hmem with ⟨c₂, hc₂⟩
    exact ⟨c₂, hc₂,
      copyStyles_value_all_empty tab1.cells h ⟨newName, [], [], [], []⟩ p
        (by intro c0 hc0; simp [lookupCell] at hc0) c₂ hc₂⟩

/-- Client sheet for the C9 witness: nothing at the template's styled
    coordinate (1,1). -/
def clientFarW : Worksheet :=
  ⟨"Sheet1", [((9, 9), ⟨.str "far", none⟩)], [], [], []⟩

/-- Witness for C9 at a concrete transplant. -/
theorem transplant_no_template_values_witness :
    (copy_tab1_format_with_client_data heapW ⟨[tmplW]⟩ tmplW clientFarW "t").2.2.colWidths
        = tmplW.colWidths ∧
    (copy_tab1_format_with_client_data heapW ⟨[tmplW]⟩ tmplW clientFarW "t").2.2.rowHeights
        = tmplW.rowHeights ∧
    (copy_tab1_format_with_client_data heapW ⟨[tmplW]⟩ tmplW clientFarW "t").2.2.merged
        = tmplW.merged ∧
    ∃ c₂,
      lookupCell (copy_tab1_format_with_client_data heapW ⟨[tmplW]⟩ tmplW clientFarW "t").2.2 (1, 1)
        = some c₂ ∧
      c₂.value = .empty :=
  transplant_no_template_values heapW ⟨[tmplW]⟩ tmplW clientFarW "t" (1, 1)
    ⟨.str "Header", some ⟨0, 1, 2, 3, 4, "0.00"⟩⟩
    (by decide) (by decide) (by decide) (by decide)
    (by
      intro c hc
      have h1 := List.mem_singleton.mp hc
      have h2 : ((1, 1) : Coord) = (9, 9) := congrArg Prod.fst h1
      exact absurd h2 (by decide))

/-! ## C8: a failing input file is skipped, the rest still processed -/

/-- C8: when loading one input file raises, the per-file loop leaves the
    running state untouched for that file and processes the remaining
    files exactly as if the failing file were absent — each of them
    still date-resolved, labelled, and transplanted by `processFile`. -/
theorem file_failure_skipped (env : BuildEnv) (tab1 : Worksheet)
    (st : StyleHeap × Workbook × Nat) (xs ys : List String) (bad : String) (e : String)
    (herr : env.loadClient bad = .error e) :
    (xs ++ bad :: ys).foldl (processFile env tab1) st
      = (xs ++ ys).foldl (processFile env tab1) st := by
  rw [List.foldl_append, List.foldl_append, List.foldl_cons]
  congr 1
  simp [processFile, herr]

/-- Environment for the builder witnesses: `tab1` present, one readable
    file and one unreadable file, saving succeeds. -/
def envSkipW : BuildEnv :=
  ⟨[], ⟨[⟨"tab1", [], [], [], []⟩]⟩,
   fun f => if f = "bad" then .error "boom" else .ok ⟨"Sheet1", [((1, 1), ⟨.num 7, none⟩)], [], [], []⟩,
   .ok ()⟩

/-- Witness for C8 at a concrete loop state. -/
theorem file_failure_skipped_witness :
    (["good"] ++ "bad" :: []).foldl (processFile envSkipW ⟨"tab1", [], [], [], []⟩)
        ([], ⟨[⟨"tab1", [], [], [], []⟩]⟩, 0)
      = (["good"] ++ []).foldl (processFile envSkipW ⟨"tab1", [], [], [], []⟩)
        ([], ⟨[⟨"tab1", [], [], [], []⟩]⟩, 0) :=
  file_failure_skipped envSkipW ⟨"tab1", [], [], [], []⟩
    ([], ⟨[⟨"tab1", [], [], [], []⟩]⟩, 0) ["good"] [] "bad" "boom" rfl

/-! ## C10: a client whose files all fail is still saved as a success -/

/-- C10: when every input file fails to load, the per-file loop leaves
    the initial state unchanged, so as long as the template tab exists
    and saving succeeds, `create_summary_for_client` reports success
    with a tab count of zero — per-file failures alone never mark the
    client failed. -/
theorem all_files_failing_still_success (env : BuildEnv) (files : List String)
    (hfail : ∀ f ∈ files, ∃ e, env.loadClient f = .error e)
    (htab : ∃ t, getSheet (prepWorkbook env.templateWb) "tab1" = some t)
    (hsave : env.saveResult = .ok ()) :
    create_summary_for_client env files = .ok (true, 0) := by
  rcases htab with ⟨t, ht⟩
  have hall : ∀ f ∈ files.mergeSort
      (fun a b => decide (extract_date_from_filename a ≤ extract_date_from_filename b)),
      ∃ e, env.loadClient f = .error e :=
    fun f hf => hfail f (List.mem_mergeSort.mp hf)
  have hfold : ∀ (l : List String), (∀ f ∈ l, ∃ e, env.loadClient f = .error e) →
      ∀ st, l.foldl (processFile env t) st = st := by
    intro l
    induction l with
    | nil => intro _ st; rfl
    | cons a tl ih =>
      intro hl st
      rw [List.foldl_cons]
      rcases hl a (by simp) with ⟨e, he⟩
      rw [show processFile env t st a = st from by simp [processFile, he]]
      exact ih (fun f hf => hl f (by simp [hf])) st
  have hfold' := hfold _ hall
  unfold create_summary_for_client
  simp only [ht, hfold', hsave]

/-- Environment for the C10 witness: template tab present, every load
    fails, save succeeds. -/
def envAllFailW : BuildEnv :=
  ⟨[], ⟨[⟨"tab1", [], [], [], []⟩]⟩, fun _ => .error "nope", .ok ()⟩

/-- Witness for C10 at a concrete environment and file list. -/
theorem all_files_failing_still_success_witness :
    create_summary_for_client envAllFailW ["f1", "f2"] = .ok (true, 0) :=
  all_files_failing_still_success envAllFailW ["f1", "f2"]
    (fun f _ => ⟨"nope", rfl⟩) ⟨⟨"tab1", [], [], [], []⟩, by decide⟩ rfl

/-! ## C3: which errors become failed-client outcomes, and which abort the batch -/

/-- Environment for the C3 counterexample: the template tab exists, but
    persisting the workbook raises. -/
def envSaveFail : BuildEnv :=
  ⟨[], ⟨[⟨"tab1", [], [], [], []⟩]⟩, fun _ => .error "bad file", .error "disk full"⟩

/-- C3 counterexample. The claim states every error while processing a
    single client — including a save failure — becomes a failed-client
    outcome and never a crash. At a concrete client whose save raises
    `disk full`, the per-client loop of `create_summary_files` instead
    propagates the exception: the batch result is the error itself, and
    the client is recorded in neither the success nor the failure list. -/
theorem save_error_aborts_batch_cex :
    create_summary_files [("Acme", envSaveFail, [])] = .error "disk full" := by
  have hclient : create_summary_for_client envSaveFail [] = .error "disk full" := by
    have hg : getSheet (prepWorkbook envSaveFail.templateWb) "tab1"
        = some ⟨"tab1", [], [], [], []⟩ := by decide
    unfold create_summary_for_client
    simp only [hg]
    rfl
  unfold create_summary_files
  rw [List.foldlM_cons]
  simp [hclient, Except.map]

/-- C3 (amended): errors are contained only below the per-file boundary.
    A missing template tab is turned into a failed-client outcome
    (`False` with zero tabs), and per-file load errors are swallowed,
    but an error from persisting the workbook propagates out of
    `create_summary_for_client` and aborts the whole client loop of
    `create_summary_files` — one client's save failure does abort the
    batch. -/
theorem client_error_propagation (env : BuildEnv) (files : List String) (e : String) :
    (getSheet (prepWorkbook env.templateWb) "tab1" = none →
      create_summary_for_client env files = .ok (false, 0)) ∧
    (env.saveResult = .error e →
      ∀ t, getSheet (prepWorkbook env.templateWb) "tab1" = some t →
        create_summary_for_client env files = .error e ∧
        ∀ (name : String) (rest : List (String × BuildEnv × List String)),
          create_summary_files ((name, env, files) :: rest) = .error e) := by
  constructor
  · intro hnone
    unfold create_summary_for_client
    simp only [hnone]
  · intro hsave t ht
    have hc : create_summary_for_client env files = .error e := by
      unfold create_summary_for_client
      simp only [ht, hsave]
    refine ⟨hc, ?_⟩
    intro name rest
    unfold create_summary_files
    rw [List.foldlM_cons]
    simp only [hc, Except.map]
    rfl

/-- Environment for the C3 witness, first conjunct: no `tab1` sheet. -/
def envNoTabW : BuildEnv :=
  ⟨[], ⟨[⟨"Sheet", [], [], [], []⟩]⟩, fun _ => .error "x", .ok ()⟩

/-- Witness for the amended C3 theorem at concrete environments. -/
theorem client_error_propagation_witness :
    create_summary_for_client envNoTabW [] = .ok (false, 0) ∧
    create_summary_files [("Acme", envSaveFail, [])] = .error "disk full" :=
  ⟨(client_error_propagation envNoTabW [] "x").1 (by decide),
   (((client_error_propagation envSaveFail [] "disk full").2 rfl
       ⟨"tab1", [], [], [], []⟩ (by decide)).2) "Acme" []⟩
